import Mathlib

/-!
# frotzl: a game launcher for Frotz

A shallow embedding of `frotzl.c` and the properties of its directory scan,
list navigation and command-line construction.

Conventions of the embedding:

* a C `int` is a Lean `Int`; the values the navigation code computes stay far
  inside the 32-bit range (see `handle_input_no_overflow`), so no wrap-around
  is modelled;
* a C `char` is a Lean `Char` and a C string is the `List Char` of its
  characters before the terminating NUL;
* the SDL event queue drained by one call of `handle_input` is a `List Event`,
  and the renderer output height read by `SDL_GetRendererOutputSize` is an
  explicit argument `h`.
-/

namespace Frotzl

/-! ## Data model -/

/-- The constant `MAX_GAMES`. -/
def MAX_GAMES : Nat := 256

/-- The constant `MAX_PATH_LEN`. -/
def MAX_PATH_LEN : Nat := 512

/-- The struct `GameEntry`: the contents of the two character buffers. -/
structure GameEntry where
  path : List Char
  name : List Char
deriving DecidableEq, Repr

/-- The struct `Launcher` without its SDL handles. `games` holds the filled
slots `games[0 .. game_count)` of the fixed array. -/
structure Launcher where
  games : List GameEntry
  game_count : Int
  selected : Int
  scroll_offset : Int
deriving DecidableEq, Repr

/-- The key symbols `handle_input` distinguishes; `other` is any other key. -/
inductive Keycode where
  | SDLK_UP
  | SDLK_DOWN
  | SDLK_RETURN
  | SDLK_SPACE
  | SDLK_ESCAPE
  | other
deriving DecidableEq, Repr

/-- The SDL events `handle_input` distinguishes; `other` is any other event
type (mouse motion, key release, ...). -/
inductive Event where
  | SDL_QUIT
  | SDL_KEYDOWN (sym : Keycode)
  | other
deriving DecidableEq, Repr

/-! ## Navigation -/

/-- The local `visible_items` of `render_launcher` and of `handle_input`:
`(h - 160) / 26` with C integer division (truncation toward zero). -/
def visible_items (h : Int) : Int := Int.tdiv (h - 160) 26

/-- The state `launcher_init` leaves: `selected = 0`, `scroll_offset = 0`
(everything else is still zero from the `memset` in `main`). -/
def launcher_init : Launcher :=
  { games := [], game_count := 0, selected := 0, scroll_offset := 0 }

/-- The body of `case SDLK_UP` in `handle_input`. -/
def case_SDLK_UP (l : Launcher) : Launcher :=
  if l.selected > 0 then
    let l1 := { l with selected := l.selected - 1 }
    if l1.selected < l1.scroll_offset then
      { l1 with scroll_offset := l1.selected }
    else l1
  else l

/-- The body of `case SDLK_DOWN` in `handle_input`. -/
def case_SDLK_DOWN (visible_items : Int) (l : Launcher) : Launcher :=
  if l.selected < l.game_count - 1 then
    let l1 := { l with selected := l.selected + 1 }
    if l1.selected ≥ l1.scroll_offset + visible_items then
      { l1 with scroll_offset := l1.selected - visible_items + 1 }
    else l1
  else l

/-- The function `handle_input`: drains the queued events under the output
height `h`; returns `-1` (quit), `1` (confirm) or `0` together with the
updated launcher. A terminal event returns at once. -/
def handle_input (h : Int) : List Event → Launcher → Int × Launcher
  | [], l => (0, l)
  | Event.SDL_QUIT :: _, l => (-1, l)
  | Event.SDL_KEYDOWN Keycode.SDLK_UP :: rest, l =>
      handle_input h rest (case_SDLK_UP l)
  | Event.SDL_KEYDOWN Keycode.SDLK_DOWN :: rest, l =>
      handle_input h rest (case_SDLK_DOWN (visible_items h) l)
  | Event.SDL_KEYDOWN Keycode.SDLK_RETURN :: _, l => (1, l)
  | Event.SDL_KEYDOWN Keycode.SDLK_SPACE :: _, l => (1, l)
  | Event.SDL_KEYDOWN Keycode.SDLK_ESCAPE :: _, l => (-1, l)
  | Event.SDL_KEYDOWN Keycode.other :: rest, l => handle_input h rest l
  | Event.other :: rest, l => handle_input h rest l

/-- The sequence of indices `i` the `for` loop of `render_launcher` visits
(and reads `games[i]` at) under the output height `h`. -/
def render_launcher (h : Int) (l : Launcher) : List Int :=
  let start_idx := l.scroll_offset
  let end_idx := start_idx + visible_items h
  let end_idx := if end_idx > l.game_count then l.game_count else end_idx
  (List.range (end_idx - start_idx).toNat).map (fun (k : Nat) => start_idx + (k : Int))

/-- The main loop of `main`: each pass is the output height seen by
`handle_input` and the events queued for it. The loop ends at the first pass
whose result is not `0`; the result of the last pass and the launcher are
returned (`0` when the passes are used up and the loop would go on). -/
def main_loop : List (Int × List Event) → Launcher → Int × Launcher
  | [], l => (0, l)
  | (h, events) :: rest, l =>
      let r := handle_input h events l
      if r.1 = 1 then r
      else if r.1 = -1 then r
      else main_loop rest r.2

/-- The read `launcher.games[launcher.selected].path` in `main`; `none` when
the index is outside the filled slots. -/
def selected_path (l : Launcher) : Option (List Char) :=
  if 0 ≤ l.selected then (l.games.get? l.selected.toNat).map GameEntry.path
  else none

/-! ## C strings -/

/-- The libc function `tolower` in the "C" locale (the program never calls
`setlocale`): `A`..`Z` map to `a`..`z`, every other character to itself. -/
def tolower (c : Char) : Char :=
  if 65 ≤ c.toNat ∧ c.toNat ≤ 90 then Char.ofNat (c.toNat + 32) else c

/-- The libc function `strrchr`: the index of the last occurrence of `c` in
`s` (the offset of the returned pointer), `none` for a NULL result. -/
def strrchr : List Char → Char → Option Nat
  | [], _ => none
  | x :: xs, c =>
      match strrchr xs c with
      | some i => some (i + 1)
      | none => if x = c then some 0 else none

/-- The libc function `strcasecmp`: walks both strings, returns the difference
of the first pair of lower-cased characters that differ (the terminating NUL
counts as character `0`), and `0` when both strings end together. -/
def strcasecmp : List Char → List Char → Int
  | [], [] => 0
  | [], b :: _ => 0 - ((tolower b).toNat : Int)
  | a :: _, [] => ((tolower a).toNat : Int) - 0
  | a :: as, b :: bs =>
      if tolower a = tolower b then strcasecmp as bs
      else ((tolower a).toNat : Int) - ((tolower b).toNat : Int)

/-- The libc function `strncpy` into a zero-filled buffer of more than `n`
bytes: the C string the destination holds afterwards is the first `n`
characters of `src`. -/
def strncpy (src : List Char) (n : Nat) : List Char := src.take n

/-- The libc function `snprintf(buf, size, ...)` for `size ≥ 1`, given the
fully formatted output `out`: the string stored in `buf` (at most `size - 1`
characters) and the return value (the untruncated length). -/
def snprintf (size : Nat) (out : List Char) : List Char × Nat :=
  (out.take (size - 1), out.length)

/-! ## Directory scan -/

/-- The function `is_game_file`: `1` when the text from the last `.` on equals
one of the seven extensions ignoring case, else `0`. -/
def is_game_file (filename : List Char) : Int :=
  match strrchr filename '.' with
  | none => 0
  | some i =>
      let ext := filename.drop i
      if strcasecmp ext ".z3".toList = 0 ∨
         strcasecmp ext ".z4".toList = 0 ∨
         strcasecmp ext ".z5".toList = 0 ∨
         strcasecmp ext ".z8".toList = 0 ∨
         strcasecmp ext ".zblorb".toList = 0 ∨
         strcasecmp ext ".zlb".toList = 0 ∨
         strcasecmp ext ".dat".toList = 0 then 1 else 0

/-- The display-name step of `scan_games`: `strncpy` of `d_name` into the
256-byte `name` buffer with bound `sizeof(name) - 1`, then the last `.` (if
any) is overwritten by NUL. -/
def display_name (d_name : List Char) : List Char :=
  let name := strncpy d_name (256 - 1)
  match strrchr name '.' with
  | some dot => name.take dot
  | none => name

/-- The `while` loop of `scan_games` over the names `readdir` still has to
yield. The loop stops when `readdir` returns NULL or `game_count` reaches
`MAX_GAMES`; an accepted name fills slot `games[game_count]`. -/
def scan_games_loop : List (List Char) → Launcher → Launcher
  | [], l => l
  | d_name :: rest, l =>
      if l.game_count < (MAX_GAMES : Int) then
        if d_name.head? = some '.' then scan_games_loop rest l
        else if is_game_file d_name ≠ 0 then
          let path := (snprintf MAX_PATH_LEN ("games/".toList ++ d_name)).1
          let name := display_name d_name
          scan_games_loop rest
            { l with games := l.games ++ [{ path := path, name := name }],
                     game_count := l.game_count + 1 }
        else scan_games_loop rest l
      else l

/-- The function `scan_games`. `dir` is `none` when `opendir("games")` fails,
otherwise the names in the order `readdir` yields them. Returns the return
value and the updated launcher. -/
def scan_games (dir : Option (List (List Char))) (l : Launcher) : Int × Launcher :=
  match dir with
  | none => (-1, l)
  | some listing =>
      let l1 := scan_games_loop listing { l with games := [], game_count := 0 }
      (l1.game_count, l1)

/-! ## Launch -/

/-- One `snprintf(command + offset, sizeof(command) - offset, ...)` of
`launch_game` on the 1024-byte buffer `command`: the string the buffer holds
afterwards and the value added to `offset`. -/
def snprintf_at (command : List Char) (offset : Nat) (out : List Char) :
    List Char × Nat :=
  let r := snprintf (1024 - offset) out
  (command.take offset ++ r.1, r.2)

/-- The function `launch_game`: the string `command` handed to `printf` and
`system`. -/
def launch_game (game_path : List Char) (use_keyboard use_fullscreen : Int) :
    List Char :=
  let command : List Char := []
  let offset : Nat := 0
  let r := snprintf_at command offset "./sfrotz".toList
  let command := r.1
  let offset := offset + r.2
  let r := if use_keyboard ≠ 0 then snprintf_at command offset " -k".toList
           else (command, 0)
  let command := r.1
  let offset := offset + r.2
  let r := if use_fullscreen ≠ 0 then snprintf_at command offset " -F".toList
           else (command, 0)
  let command := r.1
  let offset := offset + r.2
  (snprintf_at command offset (" \"".toList ++ game_path ++ "\"".toList)).1

/-! ## Specification vocabulary -/

/-- The launcher when `main` enters its loop: `launcher_init` zeroed the
selection and the offset, `scan_games` set `games` and `game_count`. -/
def nav_start (games : List GameEntry) (N : Int) : Launcher :=
  { games := games, game_count := N, selected := 0, scroll_offset := 0 }

/-- Selection range and frame: the count and the entries are never touched and
`0 ≤ selected < game_count` is kept. -/
def SelInv (g : List GameEntry) (N : Int) (l : Launcher) : Prop :=
  l.games = g ∧ l.game_count = N ∧ 0 ≤ l.selected ∧ l.selected < N

/-- The scroll window for a visible count `v`. -/
def WinInv (v : Int) (l : Launcher) : Prop :=
  l.scroll_offset ≤ l.selected ∧ l.selected < l.scroll_offset + v

/-- Selection in range and `scroll_offset` within the bounds that exclude
overflow. -/
def BoundInv (g : List GameEntry) (N : Int) (l : Launcher) : Prop :=
  SelInv g N l ∧ 0 ≤ l.scroll_offset ∧ l.scroll_offset ≤ 82595780

/-- The seven recognised extensions, without the dot. -/
def extensions : List (List Char) :=
  ["z3".toList, "z4".toList, "z5".toList, "z8".toList, "zblorb".toList,
   "zlb".toList, "dat".toList]

/-- The filter of the scan: the name does not begin with `.` and
`is_game_file` accepts it. -/
def accepted (filename : List Char) : Bool :=
  decide (filename.head? ≠ some '.' ∧ is_game_file filename ≠ 0)

/-- The entry the loop body of `scan_games` stores for an accepted name. -/
def scan_entry (d_name : List Char) : GameEntry :=
  { path := (snprintf MAX_PATH_LEN ("games/".toList ++ d_name)).1,
    name := display_name d_name }

/-! ## Arithmetic of the visible-row count -/

theorem visible_items_of_ge (h : Int) (hh : 160 ≤ h) :
    visible_items h = (h - 160) / 26 := by
  unfold visible_items
  exact Int.tdiv_eq_ediv (by omega) (by omega)

theorem visible_items_of_le (h : Int) (hh : h ≤ 160) :
    visible_items h = -((160 - h) / 26) := by
  unfold visible_items
  have e : h - 160 = -(160 - h) := by ring
  rw [e, Int.neg_tdiv, Int.tdiv_eq_ediv (by omega) (by omega)]

theorem visible_items_pos (h : Int) (hh : 186 ≤ h) : 1 ≤ visible_items h := by
  rw [visible_items_of_ge h (by omega)]; omega

/-- Every integer is the visible-row count of some output height. -/
theorem visible_items_surjective (v : Int) : visible_items (26 * v + 160) = v := by
  unfold visible_items
  have e : 26 * v + 160 - 160 = 26 * v := by ring
  rw [e]
  exact Int.mul_tdiv_cancel_left v (by decide)

theorem handle_input_preserves (P : Launcher → Prop) (h : Int)
    (hup : ∀ l, P l → P (case_SDLK_UP l))
    (hdown : ∀ l, P l → P (case_SDLK_DOWN (visible_items h) l)) :
    ∀ (events : List Event) (l : Launcher), P l → P (handle_input h events l).2 := by
  intro events
  induction events with
  | nil => intro l hl; simpa [handle_input] using hl
  | cons e rest ih =>
    intro l hl
    cases e with
    | SDL_QUIT => simpa [handle_input] using hl
    | other => simpa [handle_input] using ih l hl
    | SDL_KEYDOWN sym =>
      cases sym with
      | SDLK_UP => simpa [handle_input] using ih _ (hup l hl)
      | SDLK_DOWN => simpa [handle_input] using ih _ (hdown l hl)
      | SDLK_RETURN => simpa [handle_input] using hl
      | SDLK_SPACE => simpa [handle_input] using hl
      | SDLK_ESCAPE => simpa [handle_input] using hl
      | other => simpa [handle_input] using ih l hl

theorem main_loop_preserves (P : Launcher → Prop) :
    ∀ (passes : List (Int × List Event)),
      (∀ p ∈ passes, ∀ l, P l → P (handle_input p.1 p.2 l).2) →
      ∀ l, P l → P (main_loop passes l).2 := by
  intro passes
  induction passes with
  | nil => intro _ l hl; simpa [main_loop] using hl
  | cons p rest ih =>
    intro hstep l hl
    obtain ⟨h, events⟩ := p
    have h1 : P (handle_input h events l).2 :=
      hstep (h, events) (List.mem_cons_self _ _) l hl
    have ih1 := ih (fun q hq => hstep q (List.mem_cons_of_mem _ hq)) _ h1
    simp only [main_loop]
    split_ifs
    · exact h1
    · exact h1
    · exact ih1

theorem SelInv_up (g : List GameEntry) (N : Int) (l : Launcher) (hl : SelInv g N l) :
    SelInv g N (case_SDLK_UP l) := by
  obtain ⟨h1, h2, h3, h4⟩ := hl
  simp only [case_SDLK_UP]
  split_ifs <;> refine ⟨?_, ?_, ?_, ?_⟩ <;> simp_all <;> omega

theorem SelInv_down (g : List GameEntry) (N v : Int) (l : Launcher) (hl : SelInv g N l) :
    SelInv g N (case_SDLK_DOWN v l) := by
  obtain ⟨h1, h2, h3, h4⟩ := hl
  simp only [case_SDLK_DOWN]
  split_ifs <;> refine ⟨?_, ?_, ?_, ?_⟩ <;> simp_all <;> omega

theorem off_nonneg_up (l : Launcher) (hl : 0 ≤ l.scroll_offset) :
    0 ≤ (case_SDLK_UP l).scroll_offset := by
  simp only [case_SDLK_UP]
  split_ifs <;> simp_all
  all_goals omega

theorem off_nonneg_down (v : Int) (l : Launcher) (hl : 0 ≤ l.scroll_offset) :
    0 ≤ (case_SDLK_DOWN v l).scroll_offset := by
  simp only [case_SDLK_DOWN]
  split_ifs <;> simp_all
  all_goals omega

theorem WinInv_up (v : Int) (hv : 1 ≤ v) (l : Launcher) (hl : WinInv v l) :
    WinInv v (case_SDLK_UP l) := by
  obtain ⟨h1, h2⟩ := hl
  simp only [case_SDLK_UP]
  split_ifs <;> refine ⟨?_, ?_⟩ <;> simp_all <;> omega

theorem WinInv_down (v : Int) (hv : 1 ≤ v) (l : Launcher) (hl : WinInv v l) :
    WinInv v (case_SDLK_DOWN v l) := by
  obtain ⟨h1, h2⟩ := hl
  simp only [case_SDLK_DOWN]
  split_ifs <;> refine ⟨?_, ?_⟩ <;> simp_all <;> omega

theorem nav_start_SelInv (g : List GameEntry) (N : Int) (hN : 1 ≤ N) :
    SelInv g N (nav_start g N) := by
  refine ⟨rfl, rfl, ?_, ?_⟩ <;> simp [nav_start]
  all_goals omega

theorem main_loop_SelInv (g : List GameEntry) (N : Int)
    (passes : List (Int × List Event)) (l : Launcher) (hl : SelInv g N l) :
    SelInv g N (main_loop passes l).2 :=
  main_loop_preserves (SelInv g N) passes
    (fun p _ l0 h0 => handle_input_preserves (SelInv g N) p.1
      (SelInv_up g N) (fun l1 => SelInv_down g N (visible_items p.1) l1) p.2 l0 h0)
    l hl

theorem main_loop_off_nonneg (passes : List (Int × List Event)) (l : Launcher)
    (hl : 0 ≤ l.scroll_offset) : 0 ≤ (main_loop passes l).2.scroll_offset :=
  main_loop_preserves (fun l0 => 0 ≤ l0.scroll_offset) passes
    (fun p _ l0 h0 => handle_input_preserves (fun l1 => 0 ≤ l1.scroll_offset) p.1
      off_nonneg_up (fun l1 => off_nonneg_down (visible_items p.1) l1) p.2 l0 h0)
    l hl

theorem main_loop_WinInv (h : Int) (hh : 186 ≤ h) (passes : List (List Event))
    (l : Launcher) (hl : WinInv (visible_items h) l) :
    WinInv (visible_items h) (main_loop (passes.map (fun events => (h, events))) l).2 := by
  refine main_loop_preserves (WinInv (visible_items h)) _ ?_ l hl
  intro p hp l0 h0
  obtain ⟨events, _, rfl⟩ := List.mem_map.1 hp
  exact handle_input_preserves (WinInv (visible_items h)) h
    (WinInv_up _ (visible_items_pos h hh)) (WinInv_down _ (visible_items_pos h hh)) events l0 h0

theorem mem_render_launcher (h : Int) (l : Launcher) (i : Int)
    (hi : i ∈ render_launcher h l) :
    l.scroll_offset ≤ i ∧ i < l.scroll_offset + visible_items h ∧ i < l.game_count := by
  simp only [render_launcher, List.mem_map, List.mem_range] at hi
  obtain ⟨k, hk, rfl⟩ := hi
  split_ifs at hk <;> omega

theorem mem_render_launcher_iff (h : Int) (l : Launcher) (i : Int) :
    i ∈ render_launcher h l ↔
      l.scroll_offset ≤ i ∧ i < l.scroll_offset + visible_items h ∧ i < l.game_count := by
  constructor
  · exact mem_render_launcher h l i
  · rintro ⟨h1, h2, h3⟩
    simp only [render_launcher, List.mem_map, List.mem_range]
    refine ⟨(i - l.scroll_offset).toNat, ?_, ?_⟩
    · split_ifs <;> omega
    · omega

theorem visible_items_bound (h : Int) (h1 : -2147483648 + 160 ≤ h) (h2 : h ≤ 2147483647) :
    -82595524 ≤ visible_items h ∧ visible_items h ≤ 82595518 := by
  rcases le_total h 160 with hc | hc
  · rw [visible_items_of_le h hc]; omega
  · rw [visible_items_of_ge h hc]; omega

/-- The `int` arithmetic of the navigation code cannot overflow: with at most
`MAX_GAMES` entries and output heights for which `h - 160` is representable,
`selected` stays below 256 and `scroll_offset` between 0 and 82595780, so
every sum and difference `handle_input` and `render_launcher` form from them
and from `visible_items` is far inside the 32-bit range. -/
theorem handle_input_no_overflow (N : Int) (hN : 1 ≤ N) (hN2 : N ≤ 256)
    (games : List GameEntry) (passes : List (Int × List Event))
    (hp : ∀ p ∈ passes, -2147483648 + 160 ≤ p.1 ∧ p.1 ≤ 2147483647) :
    0 ≤ (main_loop passes (nav_start games N)).2.selected ∧
    (main_loop passes (nav_start games N)).2.selected < 256 ∧
    0 ≤ (main_loop passes (nav_start games N)).2.scroll_offset ∧
    (main_loop passes (nav_start games N)).2.scroll_offset ≤ 82595780 := by
  have key : BoundInv games N (main_loop passes (nav_start games N)).2 := by
    refine main_loop_preserves (BoundInv games N) passes ?_ _
      ⟨nav_start_SelInv games N hN, ?_, ?_⟩
    · intro p hpm l0 h0
      have hv := visible_items_bound p.1 (hp p hpm).1 (hp p hpm).2
      refine handle_input_preserves (BoundInv games N) p.1 ?_ ?_ p.2 l0 h0
      · rintro l ⟨hs, ho, hb⟩
        refine ⟨SelInv_up games N l hs, off_nonneg_up l ho, ?_⟩
        obtain ⟨-, -, s1, s2⟩ := hs
        simp only [case_SDLK_UP]
        split_ifs <;> simp_all
        all_goals omega
      · rintro l ⟨hs, ho, hb⟩
        refine ⟨SelInv_down games N _ l hs, off_nonneg_down _ l ho, ?_⟩
        obtain ⟨-, s0, s1, s2⟩ := hs
        simp only [case_SDLK_DOWN]
        split_ifs <;> simp_all
        all_goals omega
    · simp [nav_start]
    · simp [nav_start]
  obtain ⟨⟨-, -, s1, s2⟩, o1, o2⟩ := key
  exact ⟨s1, by omega, o1, o2⟩

/-! ## Facts about the string functions -/

theorem char_toNat_inj (a b : Char) (h : a.toNat = b.toNat) : a = b := by
  rw [← Char.ofNat_toNat a, ← Char.ofNat_toNat b, h]

theorem tolower_toNat_ne_zero (c : Char) (hc : c ≠ Char.ofNat 0) :
    (tolower c).toNat ≠ 0 := by
  unfold tolower
  split_ifs with h
  · obtain ⟨h1, h2⟩ := h
    have hc2 : c = Char.ofNat c.toNat := (Char.ofNat_toNat c).symm
    generalize c.toNat = n at h1 h2 hc2
    subst hc2
    interval_cases n <;> decide
  · intro h0
    exact hc (char_toNat_inj _ _ (by rw [h0]; rfl))

theorem strcasecmp_eq_zero_iff :
    ∀ (a b : List Char), (∀ c ∈ a, c ≠ Char.ofNat 0) → (∀ c ∈ b, c ≠ Char.ofNat 0) →
      (strcasecmp a b = 0 ↔ a.map tolower = b.map tolower)
  | [], [], _, _ => by simp [strcasecmp]
  | [], b :: bs, _, hb => by
      have := tolower_toNat_ne_zero b (hb b (List.mem_cons_self _ _))
      simp only [strcasecmp, List.map_nil, List.map_cons]
      constructor
      · intro h; omega
      · intro h; cases h
  | a :: as, [], ha, _ => by
      have := tolower_toNat_ne_zero a (ha a (List.mem_cons_self _ _))
      simp only [strcasecmp, List.map_nil, List.map_cons]
      constructor
      · intro h; omega
      · intro h; cases h
  | a :: as, b :: bs, ha, hb => by
      have ih := strcasecmp_eq_zero_iff as bs
        (fun c hc => ha c (List.mem_cons_of_mem _ hc))
        (fun c hc => hb c (List.mem_cons_of_mem _ hc))
      simp only [strcasecmp, List.map_cons]
      by_cases hab : tolower a = tolower b
      · simp only [hab, if_true, ih, List.cons.injEq, true_and]
      · simp only [hab, if_false, List.cons.injEq, false_and, iff_false]
        intro h0
        exact hab (char_toNat_inj _ _ (by omega))

theorem strrchr_eq_none_iff (c : Char) :
    ∀ s : List Char, strrchr s c = none ↔ c ∉ s
  | [] => by simp [strrchr]
  | x :: xs => by
      have ih := strrchr_eq_none_iff c xs
      simp only [strrchr, List.mem_cons, not_or]
      cases hx : strrchr xs c with
      | some i =>
          have : ¬ (c ∉ xs) := fun hn => by rw [ih.2 hn] at hx; cases hx
          simp [this]
      | none =>
          have hn : c ∉ xs := ih.1 hx
          by_cases hxc : x = c
          · simp [hxc]
          · have hcx : ¬ c = x := fun e => hxc e.symm
            simp [hxc, hcx, hn]

theorem strrchr_append (c : Char) (suf : List Char) (hsuf : c ∉ suf) :
    ∀ pre : List Char, strrchr (pre ++ c :: suf) c = some pre.length
  | [] => by
      simp [strrchr, (strrchr_eq_none_iff c suf).2 hsuf]
  | x :: xs => by
      simp [strrchr, strrchr_append c suf hsuf xs]

theorem strrchr_eq_some (c : Char) :
    ∀ (s : List Char) (i : Nat), strrchr s c = some i →
      ∃ pre suf, s = pre ++ c :: suf ∧ c ∉ suf ∧ i = pre.length
  | [], i, h => by simp [strrchr] at h
  | x :: xs, i, h => by
      simp only [strrchr] at h
      cases hx : strrchr xs c with
      | some j =>
          rw [hx] at h
          obtain ⟨pre, suf, e, hs, hj⟩ := strrchr_eq_some c xs j hx
          refine ⟨x :: pre, suf, by simp [e], hs, ?_⟩
          simp only [Option.some.injEq] at h
          simp [← h, hj]
      | none =>
          rw [hx] at h
          by_cases hxc : x = c
          · simp only [hxc, if_true, Option.some.injEq] at h
            exact ⟨[], xs, by simp [hxc], (strrchr_eq_none_iff c xs).1 hx, by simp [← h]⟩
          · simp [hxc] at h

theorem is_game_file_append (pre ext : List Char) (hdot : '.' ∉ ext)
    (hnul : ∀ c ∈ ext, c ≠ Char.ofNat 0) :
    is_game_file (pre ++ '.' :: ext) ≠ 0 ↔
      ∃ e ∈ extensions, ext.map tolower = e.map tolower := by
  have hn : ∀ c ∈ '.' :: ext, c ≠ Char.ofNat 0 := by
    intro c hc
    rcases List.mem_cons.1 hc with rfl | hc
    · decide
    · exact hnul c hc
  have key : ∀ e : List Char, (∀ c ∈ '.' :: e, c ≠ Char.ofNat 0) →
      (strcasecmp ('.' :: ext) ('.' :: e) = 0 ↔ ext.map tolower = e.map tolower) := by
    intro e he
    rw [strcasecmp_eq_zero_iff _ _ hn he]
    simp
  simp only [is_game_file, strrchr_append '.' ext hdot pre, List.drop_left]
  have k3 := key "z3".toList (by decide)
  have k4 := key "z4".toList (by decide)
  have k5 := key "z5".toList (by decide)
  have k8 := key "z8".toList (by decide)
  have kb := key "zblorb".toList (by decide)
  have kl := key "zlb".toList (by decide)
  have kd := key "dat".toList (by decide)
  have e3 : ".z3".toList = '.' :: "z3".toList := rfl
  have e4 : ".z4".toList = '.' :: "z4".toList := rfl
  have e5 : ".z5".toList = '.' :: "z5".toList := rfl
  have e8 : ".z8".toList = '.' :: "z8".toList := rfl
  have eb : ".zblorb".toList = '.' :: "zblorb".toList := rfl
  have el : ".zlb".toList = '.' :: "zlb".toList := rfl
  have ed : ".dat".toList = '.' :: "dat".toList := rfl
  rw [e3, e4, e5, e8, eb, el, ed]
  simp only [extensions, List.mem_cons, List.mem_singleton, List.not_mem_nil, or_false,
    exists_eq_or_imp, exists_eq_left]
  split_ifs with hc
  · rw [k3, k4, k5, k8, kb, kl, kd] at hc
    simp only [ne_eq, one_ne_zero, not_false_eq_true, true_iff]
    exact hc
  · rw [k3, k4, k5, k8, kb, kl, kd] at hc
    simp only [ne_eq, not_true_eq_false, false_iff]
    exact hc

theorem is_game_file_no_dot (filename : List Char) (h : '.' ∉ filename) :
    is_game_file filename = 0 := by
  simp [is_game_file, (strrchr_eq_none_iff '.' filename).2 h]

theorem display_name_no_dot (filename : List Char) (hlen : filename.length ≤ 255)
    (h : '.' ∉ filename) : display_name filename = filename := by
  simp only [display_name, strncpy]
  rw [List.take_of_length_le (by omega), (strrchr_eq_none_iff '.' filename).2 h]

theorem display_name_append (pre suf : List Char)
    (hlen : (pre ++ '.' :: suf).length ≤ 255) (h : '.' ∉ suf) :
    display_name (pre ++ '.' :: suf) = pre := by
  simp only [display_name, strncpy]
  rw [List.take_of_length_le (by omega), strrchr_append '.' suf h pre]
  simp

theorem scan_games_loop_eq :
    ∀ (listing : List (List Char)) (l : Launcher) (n : Nat),
      l.game_count = (n : Int) → n ≤ 256 →
      scan_games_loop listing l =
        { l with
          games := l.games ++ ((listing.filter accepted).take (256 - n)).map scan_entry,
          game_count := (n : Int) + (((listing.filter accepted).take (256 - n)).length : Int) }
  | [], l, n, hc, _ => by
      cases l
      simp_all [scan_games_loop]
  | d :: rest, l, n, hc, hn => by
      simp only [scan_games_loop, MAX_GAMES]
      by_cases hlt : l.game_count < ((256 : Nat) : Int)
      · simp only [hlt, if_true]
        by_cases hd : d.head? = some '.'
        · have ha : accepted d = false := by simp [accepted, hd]
          simp only [hd, if_true, List.filter_cons, ha]
          exact scan_games_loop_eq rest l n hc hn
        · by_cases hg : is_game_file d ≠ 0
          · have ha : accepted d = true := by simp [accepted, hd, hg]
            have hn1 : n < 256 := by omega
            have e : 256 - n = (256 - (n + 1)) + 1 := by omega
            simp only [hd, hg, if_false, if_true, List.filter_cons, ha, ne_eq, not_false_eq_true]
            rw [scan_games_loop_eq rest _ (n + 1) (by simp [hc]) (by omega)]
            rw [e, List.take_succ_cons]
            simp only [List.map_cons, List.length_cons, List.append_assoc, List.singleton_append,
              scan_entry, Nat.add_sub_cancel]
            congr 1
            push_cast
            ring
          · have ha : accepted d = false := by simp [accepted, hd, hg]
            simp only [hd, hg, if_false, List.filter_cons, ha]
            exact scan_games_loop_eq rest l n hc hn
      · have hn1 : n = 256 := by omega
        subst hn1
        cases l
        simp_all

theorem scan_games_eq (listing : List (List Char)) (l : Launcher) :
    scan_games (some listing) l =
      ((((listing.filter accepted).take 256).length : Int),
       { l with
         games := ((listing.filter accepted).take 256).map scan_entry,
         game_count := (((listing.filter accepted).take 256).length : Int) }) := by
  simp only [scan_games]
  rw [scan_games_loop_eq listing _ 0 rfl (by omega)]
  simp

theorem scan_entry_spec (f : List Char) (hlen : f.length ≤ 255) (ha : accepted f = true) :
    (scan_entry f).path = "games/".toList ++ f ∧
    ∃ suf, '.' ∉ suf ∧ f = (scan_entry f).name ++ '.' :: suf := by
  simp only [accepted, decide_eq_true_eq] at ha
  constructor
  · simp only [scan_entry, snprintf, MAX_PATH_LEN]
    apply List.take_of_length_le
    simp only [List.length_append]
    have : "games/".toList.length = 6 := rfl
    omega
  · have hmem : '.' ∈ f := by
      by_contra hc
      exact ha.2 (is_game_file_no_dot f hc)
    cases hs : strrchr f '.' with
    | none => exact absurd hmem ((strrchr_eq_none_iff '.' f).1 hs)
    | some i =>
        obtain ⟨pre, suf, e, hdot, -⟩ := strrchr_eq_some '.' f i hs
        subst e
        exact ⟨suf, hdot, by simp only [scan_entry]; rw [display_name_append pre suf hlen hdot]⟩

/-! ## The properties of the specification -/

/-- Claim C1, as amended: for every entry count `N ≥ 1` and every output height
`h ≥ 186` held constant (so that `visible_items h ≥ 1`), starting from
`selected = 0`, `scroll_offset = 0`, after any finite sequence of passes of
`handle_input` over any queued events, the launcher satisfies
`scroll_offset ≤ selected < scroll_offset + visible_items h`. -/
theorem scroll_invariant (N : Int) (hN : 1 ≤ N) (h : Int) (hh : 186 ≤ h)
    (games : List GameEntry) (passes : List (List Event)) :
    (main_loop (passes.map (fun events => (h, events))) (nav_start games N)).2.scroll_offset
      ≤ (main_loop (passes.map (fun events => (h, events))) (nav_start games N)).2.selected ∧
    (main_loop (passes.map (fun events => (h, events))) (nav_start games N)).2.selected
      < (main_loop (passes.map (fun events => (h, events))) (nav_start games N)).2.scroll_offset
        + visible_items h := by
  have _ := hN
  have h0 : WinInv (visible_items h) (nav_start games N) := by
    have := visible_items_pos h hh
    refine ⟨?_, ?_⟩ <;> simp [nav_start]
    all_goals omega
  exact main_loop_WinInv h hh passes _ h0

/-- Three entries, height 212 (two visible rows): down, down, up ends at
`selected = 1`, `scroll_offset = 1`, inside the window. -/
theorem scroll_invariant_witness :
    (1 : Int) ≤ 3 ∧ (186 : Int) ≤ 212 ∧
    (main_loop ([[Event.SDL_KEYDOWN Keycode.SDLK_DOWN, Event.SDL_KEYDOWN Keycode.SDLK_DOWN],
        [Event.SDL_KEYDOWN Keycode.SDLK_UP]].map (fun events => ((212 : Int), events)))
      (nav_start [] 3)).2 = ⟨[], 3, 1, 1⟩ ∧
    (1 : Int) ≤ 1 ∧ (1 : Int) < 1 + visible_items 212 :=
  have t := scroll_invariant 3 (by decide) 212 (by decide) []
    [[Event.SDL_KEYDOWN Keycode.SDLK_DOWN, Event.SDL_KEYDOWN Keycode.SDLK_DOWN],
     [Event.SDL_KEYDOWN Keycode.SDLK_UP]]
  ⟨by decide, by decide, by decide, t.1, t.2⟩

/-- The scroll invariant of C1 fails for a small viewport: with two entries and
output height 170 (`visible_items = 0`) one down-key leaves `selected = 1`,
`scroll_offset = 2`. -/
theorem scroll_invariant_counterexample :
    ¬ ((main_loop ([[Event.SDL_KEYDOWN Keycode.SDLK_DOWN]].map (fun events => ((170 : Int), events)))
          (nav_start [] 2)).2.scroll_offset
        ≤ (main_loop ([[Event.SDL_KEYDOWN Keycode.SDLK_DOWN]].map (fun events => ((170 : Int), events)))
          (nav_start [] 2)).2.selected ∧
       (main_loop ([[Event.SDL_KEYDOWN Keycode.SDLK_DOWN]].map (fun events => ((170 : Int), events)))
          (nav_start [] 2)).2.selected
        < (main_loop ([[Event.SDL_KEYDOWN Keycode.SDLK_DOWN]].map (fun events => ((170 : Int), events)))
          (nav_start [] 2)).2.scroll_offset + visible_items 170) := by
  decide

/-- Claim C2: for every entry count `N` with `1 ≤ N ≤ 256` and every launcher
with `game_count = N` and `selected = 0`, after any finite sequence of passes
of `handle_input`, each with its own output height and any queued events,
`0 ≤ selected < N`; and when the `N` slots are filled, the read
`games[selected].path` of `main` returns the path of one of those entries. -/
theorem selected_in_range (N : Int) (hN1 : 1 ≤ N) (hN2 : N ≤ 256) (l : Launcher)
    (hcount : l.game_count = N) (hsel : l.selected = 0)
    (passes : List (Int × List Event)) :
    0 ≤ (main_loop passes l).2.selected ∧ (main_loop passes l).2.selected < N ∧
    ((l.games.length : Int) = N →
      ∃ e ∈ l.games, selected_path (main_loop passes l).2 = some e.path) := by
  have _ := hN2
  have h0 : SelInv l.games N l := ⟨rfl, hcount, by omega, by omega⟩
  obtain ⟨g1, -, s1, s2⟩ := main_loop_SelInv l.games N passes l h0
  refine ⟨s1, s2, ?_⟩
  intro hlen
  have hlt : (main_loop passes l).2.selected.toNat < l.games.length := by omega
  refine ⟨l.games.get ⟨_, hlt⟩, List.get_mem _ _ _, ?_⟩
  simp only [selected_path, s1, if_true, g1]
  rw [List.get?_eq_get hlt]
  rfl

/-- Two entries, one pass with down, an ignored event and return: the selection
is 1 and `main` reads `games/b.zblorb`. -/
theorem selected_in_range_witness :
    0 ≤ (main_loop [(480, [Event.SDL_KEYDOWN Keycode.SDLK_DOWN, Event.other,
            Event.SDL_KEYDOWN Keycode.SDLK_RETURN])]
          (nav_start [⟨"games/a.z5".toList, "a".toList⟩, ⟨"games/b.zblorb".toList, "b".toList⟩] 2)).2.selected ∧
    (main_loop [(480, [Event.SDL_KEYDOWN Keycode.SDLK_DOWN, Event.other,
            Event.SDL_KEYDOWN Keycode.SDLK_RETURN])]
          (nav_start [⟨"games/a.z5".toList, "a".toList⟩, ⟨"games/b.zblorb".toList, "b".toList⟩] 2)).2.selected < 2 ∧
    selected_path (main_loop [(480, [Event.SDL_KEYDOWN Keycode.SDLK_DOWN, Event.other,
            Event.SDL_KEYDOWN Keycode.SDLK_RETURN])]
          (nav_start [⟨"games/a.z5".toList, "a".toList⟩, ⟨"games/b.zblorb".toList, "b".toList⟩] 2)).2
      = some "games/b.zblorb".toList :=
  have t := selected_in_range 2 (by decide) (by decide)
    (nav_start [⟨"games/a.z5".toList, "a".toList⟩, ⟨"games/b.zblorb".toList, "b".toList⟩] 2)
    rfl rfl
    [(480, [Event.SDL_KEYDOWN Keycode.SDLK_DOWN, Event.other,
            Event.SDL_KEYDOWN Keycode.SDLK_RETURN])]
  ⟨t.1, t.2.1, by decide⟩

/-- Claim C3: for every filename (a C string, so without NUL), `is_game_file`
returns non-zero if and only if the filename splits as `pre ++ "." ++ ext`
with no `.` in `ext` and `ext` equal, ignoring ASCII case, to one of `z3`,
`z4`, `z5`, `z8`, `zblorb`, `zlb`, `dat`; it returns `0` for a filename with
no `.` and for a filename that ends in `.`. -/
theorem is_game_file_iff (filename : List Char)
    (hnul : ∀ c ∈ filename, c ≠ Char.ofNat 0) :
    (is_game_file filename ≠ 0 ↔
      ∃ pre ext, filename = pre ++ '.' :: ext ∧ '.' ∉ ext ∧
        ∃ e ∈ extensions, ext.map tolower = e.map tolower) ∧
    ('.' ∉ filename → is_game_file filename = 0) ∧
    (∀ pre, filename = pre ++ ['.'] → is_game_file filename = 0) := by
  refine ⟨?_, is_game_file_no_dot filename, ?_⟩
  · constructor
    · intro h
      have hmem : '.' ∈ filename := by
        by_contra hc
        exact h (is_game_file_no_dot filename hc)
      cases hs : strrchr filename '.' with
      | none => exact absurd hmem ((strrchr_eq_none_iff '.' filename).1 hs)
      | some i =>
          obtain ⟨pre, ext, e, hdot, -⟩ := strrchr_eq_some '.' filename i hs
          subst e
          have hn : ∀ c ∈ ext, c ≠ Char.ofNat 0 := fun c hc =>
            hnul c (List.mem_append_right _ (List.mem_cons_of_mem _ hc))
          exact ⟨pre, ext, rfl, hdot, (is_game_file_append pre ext hdot hn).1 h⟩
    · rintro ⟨pre, ext, e, hdot, hx⟩
      subst e
      have hn : ∀ c ∈ ext, c ≠ Char.ofNat 0 := fun c hc =>
        hnul c (List.mem_append_right _ (List.mem_cons_of_mem _ hc))
      exact (is_game_file_append pre ext hdot hn).2 hx
  · intro pre e
    subst e
    by_contra h
    have := (is_game_file_append pre [] (by simp) (by simp)).1 h
    revert this
    simp [extensions]

/-- The name `Story.ZBlorb` is accepted through its last-dot suffix, `notes.txt`
is rejected. -/
theorem is_game_file_iff_witness :
    is_game_file "Story.ZBlorb".toList ≠ 0 ∧ is_game_file "notes.txt".toList = 0 ∧
    (∃ pre ext, "Story.ZBlorb".toList = pre ++ '.' :: ext ∧ '.' ∉ ext ∧
        ∃ e ∈ extensions, ext.map tolower = e.map tolower) :=
  ⟨by decide, by decide,
   (is_game_file_iff "Story.ZBlorb".toList (by decide)).1.1 (by decide)⟩

/-- Claim C4: for every directory listing whose names have at most 255
characters, `scan_games` stores, in listing order, one entry for each of the
first 256 names that do not begin with `.` and that `is_game_file` accepts;
the entry of a name `f` has `path = "games/" ++ f` and `name` equal to `f`
without its last `.`-suffix; the return value is the number of entries, and
equals `game_count`. The selection and the offset are left alone. -/
theorem scan_games_spec (listing : List (List Char))
    (hlen : ∀ f ∈ listing, f.length ≤ 255) (l : Launcher) :
    List.Forall₂
      (fun (f : List Char) (e : GameEntry) =>
        e.path = "games/".toList ++ f ∧ ∃ suf, '.' ∉ suf ∧ f = e.name ++ '.' :: suf)
      ((listing.filter
          (fun f => decide (f.head? ≠ some '.' ∧ is_game_file f ≠ 0))).take 256)
      (scan_games (some listing) l).2.games ∧
    (scan_games (some listing) l).1 = ((scan_games (some listing) l).2.games.length : Int) ∧
    (scan_games (some listing) l).2.game_count = (scan_games (some listing) l).1 ∧
    (scan_games (some listing) l).2.selected = l.selected ∧
    (scan_games (some listing) l).2.scroll_offset = l.scroll_offset := by
  have hf : (fun f : List Char => decide (f.head? ≠ some '.' ∧ is_game_file f ≠ 0)) = accepted := by
    funext f
    rfl
  rw [hf, scan_games_eq]
  refine ⟨?_, by simp, rfl, rfl, rfl⟩
  simp only [List.forall₂_map_right_iff, List.forall₂_same]
  intro f hfm
  have h1 : f ∈ listing.filter accepted := List.mem_of_mem_take hfm
  rw [List.mem_filter] at h1
  exact scan_entry_spec f (hlen f h1.1) h1.2

/-- The listing `a.z5`, `b.zblorb`, `readme.txt`, `.hidden.z5` yields exactly
the entries `{a, games/a.z5}` and `{b, games/b.zblorb}` and returns 2. -/
theorem scan_games_spec_witness :
    (∀ f ∈ ["a.z5".toList, "b.zblorb".toList, "readme.txt".toList, ".hidden.z5".toList],
      f.length ≤ 255) ∧
    scan_games (some ["a.z5".toList, "b.zblorb".toList, "readme.txt".toList,
        ".hidden.z5".toList]) launcher_init =
      (2, ⟨[⟨"games/a.z5".toList, "a".toList⟩, ⟨"games/b.zblorb".toList, "b".toList⟩], 2, 0, 0⟩) ∧
    (scan_games (some ["a.z5".toList, "b.zblorb".toList, "readme.txt".toList,
        ".hidden.z5".toList]) launcher_init).1 =
      ((scan_games (some ["a.z5".toList, "b.zblorb".toList, "readme.txt".toList,
        ".hidden.z5".toList]) launcher_init).2.games.length : Int) :=
  ⟨by decide, by decide,
   (scan_games_spec ["a.z5".toList, "b.zblorb".toList, "readme.txt".toList, ".hidden.z5".toList]
      (by decide) launcher_init).2.1⟩

/-- Claim C5: for every game path of at most 511 characters and every pair of
flags, the command `launch_game` builds is `./sfrotz`, then ` -k` when
`use_keyboard` is set, then ` -F` when `use_fullscreen` is set, then a space
and the path between double quotes, copied verbatim and not truncated. -/
theorem launch_game_command (game_path : List Char) (hlen : game_path.length ≤ 511)
    (use_keyboard use_fullscreen : Int) :
    launch_game game_path use_keyboard use_fullscreen =
      "./sfrotz".toList ++ (if use_keyboard ≠ 0 then " -k".toList else [])
        ++ (if use_fullscreen ≠ 0 then " -F".toList else [])
        ++ " \"".toList ++ game_path ++ "\"".toList := by
  have t : ∀ n : Nat, 540 ≤ n →
      List.take n (' ' :: Char.ofNat 34 :: (game_path ++ [Char.ofNat 34])) =
        ' ' :: Char.ofNat 34 :: (game_path ++ [Char.ofNat 34]) := by
    intro n hn
    apply List.take_of_length_le
    simp only [List.length_cons, List.length_append, List.length_nil]
    omega
  by_cases hk : use_keyboard = 0 <;> by_cases hf : use_fullscreen = 0 <;>
    simp [launch_game, snprintf_at, snprintf, hk, hf, t]

/-- Both flags set and the path `games/b.zblorb`. -/
theorem launch_game_command_witness :
    "games/b.zblorb".toList.length ≤ 511 ∧
    launch_game "games/b.zblorb".toList 1 1 = "./sfrotz -k -F \"games/b.zblorb\"".toList :=
  ⟨by decide, (launch_game_command "games/b.zblorb".toList (by decide) 1 1).trans (by decide)⟩

/-- Claim C6: for every filename of at most 255 characters, the display name
is the filename itself when it has no `.`, and otherwise exactly the text
before its final `.` (earlier dots are kept). -/
theorem display_name_spec (filename : List Char) (hlen : filename.length ≤ 255) :
    ('.' ∉ filename → display_name filename = filename) ∧
    (∀ pre suf, filename = pre ++ '.' :: suf → '.' ∉ suf →
      display_name filename = pre) := by
  refine ⟨display_name_no_dot filename hlen, ?_⟩
  intro pre suf e hs
  subst e
  exact display_name_append pre suf hlen hs

/-- The names `Zork.z5`, `my.game.dat` and `noext` give `Zork`, `my.game` and
`noext`. -/
theorem display_name_spec_witness :
    display_name "Zork.z5".toList = "Zork".toList ∧
    display_name "my.game.dat".toList = "my.game".toList ∧
    display_name "noext".toList = "noext".toList :=
  ⟨(display_name_spec "Zork.z5".toList (by decide)).2 "Zork".toList "z5".toList rfl (by decide),
   (display_name_spec "my.game.dat".toList (by decide)).2 "my.game".toList "dat".toList rfl
     (by decide),
   (display_name_spec "noext".toList (by decide)).1 (by decide)⟩

/-- Claim C7, as amended: for every output height `h`, the visible-row count
used by `render_launcher` and `handle_input` is `(h - 160) / 26` truncated
toward zero and is not clamped at zero: it is the quotient of `h - 160` by 26
for `h ≥ 160` and minus the quotient of `160 - h` by 26 for `h ≤ 160`; it
equals `max(0, (h - 160) / 26)` exactly when `h ≥ 135`, and is negative for
`h ≤ 134`. -/
theorem visible_items_clamp (h : Int) :
    (160 ≤ h → visible_items h = (h - 160) / 26) ∧
    (h ≤ 160 → visible_items h = -((160 - h) / 26)) ∧
    (visible_items h = max 0 (Int.tdiv (h - 160) 26) ↔ 135 ≤ h) ∧
    (h ≤ 134 → visible_items h ≤ -1) := by
  refine ⟨visible_items_of_ge h, visible_items_of_le h, ?_, ?_⟩
  · change visible_items h = max 0 (visible_items h) ↔ 135 ≤ h
    rcases le_total h 160 with hc | hc
    · rw [visible_items_of_le h hc]
      constructor
      · intro he
        have : (0 : Int) ≤ -((160 - h) / 26) := by
          rw [he]; exact le_max_left _ _
        omega
      · intro h135
        have : (160 - h) / 26 = 0 := by omega
        rw [this]; simp
    · rw [visible_items_of_ge h hc]
      have : (0 : Int) ≤ (h - 160) / 26 := by omega
      constructor
      · intro _; omega
      · intro _; exact (max_eq_right this).symm
  · intro hle
    rw [visible_items_of_le h (by omega)]
    omega

/-- Height 100 gives a negative count, height 480 the clamped value. -/
theorem visible_items_clamp_witness :
    (100 : Int) ≤ 134 ∧ visible_items 100 ≤ -1 ∧
    visible_items 480 = max 0 (Int.tdiv (480 - 160) 26) :=
  ⟨by decide, (visible_items_clamp 100).2.2.2 (by decide),
   (visible_items_clamp 480).2.2.1.2 (by decide)⟩

/-- At height 0 the count is `-6`, not `max(0, -6) = 0`, and `handle_input`
acts on the negative value: a down-key scrolls to offset 8, where the clamped
count would scroll to offset 2. -/
theorem visible_items_clamp_counterexample :
    visible_items 0 ≠ max 0 (Int.tdiv (0 - 160) 26) ∧
    (handle_input 0 [Event.SDL_KEYDOWN Keycode.SDLK_DOWN] (nav_start [] 2)).2
      ≠ case_SDLK_DOWN (max 0 (Int.tdiv (0 - 160) 26)) (nav_start [] 2) := by
  decide

/-- Claim C8: for every launcher (any entry count and scroll offset) and every
output height, an up-key handled at `selected = 0` and a down-key handled at
`selected = game_count - 1` leave the whole launcher, so `selected` and
`scroll_offset`, unchanged, and `handle_input` returns `0`. -/
theorem boundary_moves_noop (h : Int) (l : Launcher) :
    (l.selected = 0 →
      handle_input h [Event.SDL_KEYDOWN Keycode.SDLK_UP] l = (0, l)) ∧
    (l.selected = l.game_count - 1 →
      handle_input h [Event.SDL_KEYDOWN Keycode.SDLK_DOWN] l = (0, l)) := by
  constructor
  · intro h0
    simp [handle_input, case_SDLK_UP, h0]
  · intro h0
    simp [handle_input, case_SDLK_DOWN, h0]

/-- Five entries: up at index 0 and down at index 4 change nothing. -/
theorem boundary_moves_noop_witness :
    handle_input 480 [Event.SDL_KEYDOWN Keycode.SDLK_UP] ⟨[], 5, 0, 0⟩ = (0, ⟨[], 5, 0, 0⟩) ∧
    handle_input 290 [Event.SDL_KEYDOWN Keycode.SDLK_DOWN] ⟨[], 5, 4, 2⟩ = (0, ⟨[], 5, 4, 2⟩) :=
  ⟨(boundary_moves_noop 480 ⟨[], 5, 0, 0⟩).1 rfl,
   (boundary_moves_noop 290 ⟨[], 5, 4, 2⟩).2 (by decide)⟩

/-- Claim C9: for every `N ≥ 1` and every constant output height `h ≥ 186`,
`visible_items h ≥ 1` and every state reached from `selected = 0`,
`scroll_offset = 0` by passes of `handle_input` satisfies
`0 ≤ scroll_offset ≤ selected < min (scroll_offset + visible_items h) N`, so
`selected` is one of the indices `render_launcher` draws. -/
theorem selected_visible (N : Int) (hN : 1 ≤ N) (h : Int) (hh : 186 ≤ h)
    (games : List GameEntry) (passes : List (List Event)) :
    1 ≤ visible_items h ∧
    0 ≤ (main_loop (passes.map (fun events => (h, events))) (nav_start games N)).2.scroll_offset ∧
    (main_loop (passes.map (fun events => (h, events))) (nav_start games N)).2.scroll_offset
      ≤ (main_loop (passes.map (fun events => (h, events))) (nav_start games N)).2.selected ∧
    (main_loop (passes.map (fun events => (h, events))) (nav_start games N)).2.selected
      < min ((main_loop (passes.map (fun events => (h, events))) (nav_start games N)).2.scroll_offset
              + visible_items h) N ∧
    (main_loop (passes.map (fun events => (h, events))) (nav_start games N)).2.selected
      ∈ render_launcher h
          (main_loop (passes.map (fun events => (h, events))) (nav_start games N)).2 := by
  have hv := visible_items_pos h hh
  have hw : WinInv (visible_items h) (nav_start games N) := by
    refine ⟨?_, ?_⟩ <;> simp [nav_start]
    all_goals omega
  obtain ⟨w1, w2⟩ := main_loop_WinInv h hh passes _ hw
  obtain ⟨-, s0, -, s2⟩ := main_loop_SelInv games N
    (passes.map (fun events => (h, events))) _ (nav_start_SelInv games N hN)
  have o1 := main_loop_off_nonneg (passes.map (fun events => (h, events)))
    (nav_start games N) (by simp [nav_start])
  refine ⟨hv, o1, w1, lt_min w2 s2, ?_⟩
  rw [mem_render_launcher_iff]
  exact ⟨w1, w2, by omega⟩

/-- Thirty entries, height 212: after three down-keys the state is
`selected = 3`, `scroll_offset = 2` and index 3 is drawn. -/
theorem selected_visible_witness :
    (1 : Int) ≤ 30 ∧ (186 : Int) ≤ 212 ∧
    (main_loop ((List.replicate 3 [Event.SDL_KEYDOWN Keycode.SDLK_DOWN]).map
        (fun events => ((212 : Int), events))) (nav_start [] 30)).2 = ⟨[], 30, 3, 2⟩ ∧
    (main_loop ((List.replicate 3 [Event.SDL_KEYDOWN Keycode.SDLK_DOWN]).map
        (fun events => ((212 : Int), events))) (nav_start [] 30)).2.selected
      ∈ render_launcher 212
          (main_loop ((List.replicate 3 [Event.SDL_KEYDOWN Keycode.SDLK_DOWN]).map
            (fun events => ((212 : Int), events))) (nav_start [] 30)).2 :=
  ⟨by decide, by decide, by decide,
   (selected_visible 30 (by decide) 212 (by decide) []
      (List.replicate 3 [Event.SDL_KEYDOWN Keycode.SDLK_DOWN])).2.2.2.2⟩

/-- Claim C10: for every `N ≥ 1`, starting from `selected = 0`,
`scroll_offset = 0`, after any finite sequence of passes of `handle_input`,
each with its own output height (so with any visible-row count, zero and
negative ones included), `scroll_offset ≥ 0`; and every index `i` the loop of
`render_launcher` visits, under any height, satisfies `0 ≤ i < game_count`,
where `game_count` is still `N`. -/
theorem scroll_offset_nonneg (N : Int) (hN : 1 ≤ N) (games : List GameEntry)
    (passes : List (Int × List Event)) (h : Int) :
    0 ≤ (main_loop passes (nav_start games N)).2.scroll_offset ∧
    ∀ i ∈ render_launcher h (main_loop passes (nav_start games N)).2,
      0 ≤ i ∧ i < (main_loop passes (nav_start games N)).2.game_count ∧
      (main_loop passes (nav_start games N)).2.game_count = N := by
  have o1 := main_loop_off_nonneg passes (nav_start games N) (by simp [nav_start])
  obtain ⟨-, s0, -, -⟩ := main_loop_SelInv games N passes _ (nav_start_SelInv games N hN)
  refine ⟨o1, ?_⟩
  intro i hi
  obtain ⟨h1, -, h3⟩ := mem_render_launcher h _ i hi
  exact ⟨by omega, h3, s0⟩

/-- Four entries, passes at heights 0, 100 and 480: down, down, up ends with a
non-negative offset. -/
theorem scroll_offset_nonneg_witness :
    (1 : Int) ≤ 4 ∧
    (main_loop [(0, [Event.SDL_KEYDOWN Keycode.SDLK_DOWN]), (100, [Event.SDL_KEYDOWN Keycode.SDLK_DOWN]),
        (480, [Event.SDL_KEYDOWN Keycode.SDLK_UP])] (nav_start [] 4)).2 = ⟨[], 4, 1, 1⟩ ∧
    0 ≤ (main_loop [(0, [Event.SDL_KEYDOWN Keycode.SDLK_DOWN]), (100, [Event.SDL_KEYDOWN Keycode.SDLK_DOWN]),
        (480, [Event.SDL_KEYDOWN Keycode.SDLK_UP])] (nav_start [] 4)).2.scroll_offset :=
  ⟨by decide, by decide,
   (scroll_offset_nonneg 4 (by decide) []
      [(0, [Event.SDL_KEYDOWN Keycode.SDLK_DOWN]), (100, [Event.SDL_KEYDOWN Keycode.SDLK_DOWN]),
       (480, [Event.SDL_KEYDOWN Keycode.SDLK_UP])] 480).1⟩

end Frotzl
